import Mathlib

/-!
# Verification of the acp-harness trajectory-normalization core

Shallow embedding of the trajectory extraction, derived-signal, and
configuration-validation code of the `acp-harness` repository
(`src/core.ts`, `src/headless.schemas.ts`), together with proofs of the
specified properties.

Modelling conventions:
* JavaScript numbers used as millisecond clock readings are modelled as `Int`.
* Each raw update is paired with the value `Date.now()` returns while that
  update is processed (the source reads the clock inside the loop body; the
  two reads inside one `tool_call` iteration are modelled as one reading).
* The in-place mutation of an already-emitted trajectory step through the
  correlation map (`toolCallMap` stores a reference to the step object) is
  modelled by storing the index of the step in the trajectory list and updating
  the list at that index.
* JS `Map` is modelled as an association list with first-match lookup;
  insertion of a fresh key is a cons.
-/

set_option linter.unusedVariables false

namespace AcpHarness

/-- One canonical update produced by the headless output parser
(`ParsedUpdate` of `headless-output-parser.ts`): a `type` tag and the
best-effort extracted `content`, `title` and `status` fields, each of which
may be absent.  The `type` values produced by the parser are exactly the
`emitAs` enum `thought | tool_call | message | plan`; we keep `type` a
`String` to mirror the string comparisons in the source. -/
structure ParsedUpdate where
  type : String
  content : Option String := none
  title : Option String := none
  status : Option String := none
deriving Repr, DecidableEq

/-- A step of the canonical trajectory (`TrajectoryStep` of `schemas.ts`):
discriminated union of `thought`, `message`, `tool_call` and `plan` variants.
`tool_call` carries optional `input`/`output` payloads (opaque here) and an
optional `duration`; timestamps are milliseconds since the turn started. -/
inductive TrajectoryStep where
  | thought (content : String) (timestamp : Int)
  | message (content : String) (timestamp : Int)
  | tool_call (name status : String) (input output : Option String)
      (timestamp : Int) (duration : Option Int)
  | plan (entries : List String) (timestamp : Int)
deriving Repr, DecidableEq

namespace TrajectoryStep

/-- Models the source test `step.type === "tool_call"`. -/
def isToolCall : TrajectoryStep → Bool
  | .tool_call .. => true
  | _ => false

/-- Models the source test `step.type === "message"`. -/
def isMessage : TrajectoryStep → Bool
  | .message .. => true
  | _ => false

/-- Models the source test `step.type === "plan"`. -/
def isPlan : TrajectoryStep → Bool
  | .plan .. => true
  | _ => false

/-- Models the early-exit test of `detectTrajectoryRichness`: the step kinds
(thought, tool_call, plan) whose presence makes a trajectory `full`. -/
def isFullKind : TrajectoryStep → Bool
  | .thought .. => true
  | .tool_call .. => true
  | .plan .. => true
  | _ => false

/-- Content of a `message` step (the source accesses `.content` after
narrowing the union to the `message` variant). -/
def messageContent : TrajectoryStep → String
  | .message c _ => c
  | _ => ""

/-- Models the source test `step.type === "tool_call" && step.status === "failed"`. -/
def isFailedToolCall : TrajectoryStep → Bool
  | .tool_call _ status _ _ _ _ => status = "failed"
  | _ => false

end TrajectoryStep

/-- One value of the tool-call correlation map
(start timestamp plus a mutable reference to the already-emitted step): the
start timestamp and, in place of the reference, the index of the step in the
trajectory list. -/
structure CallEntry where
  start : Int
  idx : Nat
deriving Repr, DecidableEq

/-- Models `toolCallMap.get(key)`: first-match lookup in the association list. -/
def findCall : List (String × CallEntry) → String → Option CallEntry
  | [], _ => none
  | (k, e) :: rest, key => if k = key then some e else findCall rest key

/-- Replace the element at index `n` by `f` applied to it (models the
in-place mutation of the step object referenced from the correlation map). -/
def modifyAt (f : TrajectoryStep → TrajectoryStep) :
    List TrajectoryStep → Nat → List TrajectoryStep
  | [], _ => []
  | s :: rest, 0 => f s :: rest
  | s :: rest, n + 1 => s :: modifyAt f rest n

/-- Number of `tool_call` steps in a trajectory. -/
def countToolCalls (traj : List TrajectoryStep) : Nat :=
  (traj.filter TrajectoryStep.isToolCall).length

/-- Accumulated state of an `extractTrajectory` loop (both variants use the
same shape): the emitted trajectory and the `toolCallMap`. -/
structure CorrState where
  traj : List TrajectoryStep
  calls : List (String × CallEntry)
deriving Repr, DecidableEq

namespace Headless

/-- Models `const toolCallId = update.title ?? \x60tool_${Date.now()}\x60` — the derived
correlation identity of a `tool_call` update in the headless extractor. -/
def derivedId (u : ParsedUpdate) (now : Int) : String :=
  u.title.getD ("tool_" ++ toString now)

/-- The merge performed on the step referenced by an open correlation entry:
`existing.step.status = update.status; existing.step.duration = timestamp - existing.start`
(the guard ensures `update.status` is `"completed"`). -/
def completeStep (newStatus : String) (dur : Int) : TrajectoryStep → TrajectoryStep
  | .tool_call name _ inp out ts _ => .tool_call name newStatus inp out ts (some dur)
  | s => s


/-- One iteration of the loop body of the headless `extractTrajectory`
(`core.ts`, capture command for schema-driven headless agents).  The second
component of `a` is the `Date.now()` reading for this iteration. -/
def step (startTime : Int) (s : CorrState) (a : ParsedUpdate × Int) : CorrState :=
  let u := a.1
  let now := a.2
  let timestamp := now - startTime
  if u.type = "thought" then
    { s with traj := s.traj ++ [.thought (u.content.getD "") timestamp] }
  else if u.type = "message" then
    { s with traj := s.traj ++ [.message (u.content.getD "") timestamp] }
  else if u.type = "tool_call" then
    match findCall s.calls (derivedId u now) with
    | some e =>
      if u.status = some "completed" then
        { s with traj := modifyAt (completeStep "completed" (timestamp - e.start)) s.traj e.idx }
      else
        s
    | none =>
      { traj := s.traj ++
          [.tool_call (u.title.getD "unknown") (u.status.getD "pending") none none timestamp none],
        calls := (derivedId u now, ⟨timestamp, s.traj.length⟩) :: s.calls }
  else if u.type = "plan" then
    { s with traj := s.traj ++ [.plan [] timestamp] }
  else
    s

/-- The full loop of the headless `extractTrajectory`, returning the final
state (trajectory plus correlation map). -/
def run (updates : List (ParsedUpdate × Int)) (startTime : Int) : CorrState :=
  updates.foldl (step startTime) ⟨[], []⟩

/-- Models `extractTrajectory(updates, startTime)` of the headless capture command. -/
def extractTrajectory (updates : List (ParsedUpdate × Int)) (startTime : Int) :
    List TrajectoryStep :=
  (run updates startTime).traj

end Headless

namespace ACP

/-- A content block of an ACP notification; the extractor only inspects
whether `content.type === "text"` and, if so, reads `content.text`. -/
inductive ContentBlock where
  | text (t : String)
  | other
deriving Repr, DecidableEq

/-- The `update` payload of an ACP `SessionNotification`, restricted to the
shape the extractor inspects.  For `tool_call` updates the fields are
`toolCallId`, `title`, optional `status`, and the opaque payloads `rawInput`,
`content`, `rawOutput` (modelled as optional opaque strings; the extractor
only tests their presence and copies them). -/
inductive SessionUpdate where
  | agent_thought_chunk (content : ContentBlock)
  | agent_message_chunk (content : ContentBlock)
  | tool_call (toolCallId title : String) (status : Option String)
      (rawInput content rawOutput : Option String)
  | plan (entries : List String)
  | other
deriving Repr, DecidableEq

/-- The merge the ACP extractor performs on an already-open entry: it always
overwrites the status (`toolCall.status ?? "pending"`), copies `content` and
then `rawOutput` into `output` when present, and sets
`duration = timestamp - existing.start` — for any status, not only
`"completed"`. -/
def mergeStep (newStatus : Option String) (content rawOutput : Option String)
    (dur : Int) : TrajectoryStep → TrajectoryStep
  | .tool_call name _ inp out ts _ =>
      let out1 := if content.isSome then content else out
      let out2 := if rawOutput.isSome then rawOutput else out1
      .tool_call name (newStatus.getD "pending") inp out2 ts (some dur)
  | s => s


/-- One iteration of the loop body of the ACP `extractTrajectory`
(`core.ts`, capture command for ACP agents).  The second component of `a`
is the `Date.now()` reading for this iteration. -/
def step (startTime : Int) (s : CorrState) (a : SessionUpdate × Int) : CorrState :=
  let now := a.2
  let timestamp := now - startTime
  match a.1 with
  | .agent_thought_chunk (.text t) =>
      { s with traj := s.traj ++ [.thought t timestamp] }
  | .agent_message_chunk (.text t) =>
      { s with traj := s.traj ++ [.message t timestamp] }
  | .tool_call toolCallId title status rawInput content rawOutput =>
    match findCall s.calls toolCallId with
    | some e =>
        { s with traj :=
            modifyAt (mergeStep status content rawOutput (timestamp - e.start)) s.traj e.idx }
    | none =>
        { traj := s.traj ++
            [.tool_call title (status.getD "pending") rawInput none timestamp none],
          calls := (toolCallId, ⟨timestamp, s.traj.length⟩) :: s.calls }
  | .plan entries =>
      { s with traj := s.traj ++ [.plan entries timestamp] }
  | _ => s

/-- The full loop of the ACP `extractTrajectory`, returning the final state. -/
def run (notifications : List (SessionUpdate × Int)) (startTime : Int) : CorrState :=
  notifications.foldl (step startTime) ⟨[], []⟩

/-- Models `extractTrajectory(notifications, startTime)` of the ACP capture
command. -/
def extractTrajectory (notifications : List (SessionUpdate × Int)) (startTime : Int) :
    List TrajectoryStep :=
  (run notifications startTime).traj

end ACP

/-! ## Derived signals of the trajectory normalizer -/

/-- Models `Array.prototype.join` with separator `"\n"`: empty string on the
empty list, otherwise the elements interleaved with newlines. -/
def joinLines : List String → String
  | [] => ""
  | [s] => s
  | s :: rest => s ++ "\n" ++ joinLines rest

/-- Models `extractOutput(trajectory)`: filter the `message` steps, map to
their contents, join with newlines. -/
def extractOutput (traj : List TrajectoryStep) : String :=
  joinLines ((traj.filter TrajectoryStep.isMessage).map TrajectoryStep.messageContent)

/-- Models `hasToolErrors(trajectory)`: some step is a `tool_call` whose
status is `"failed"`. -/
def hasToolErrors (traj : List TrajectoryStep) : Bool :=
  traj.any TrajectoryStep.isFailedToolCall

/-- Process-exit metadata of a turn (`ProcessExitInfo` of the session
manager): exit code, killing signal, and whether a timeout killed the
process. -/
structure ProcessExitInfo where
  exitCode : Option Int
  signal : Option String
  timedOut : Bool
deriving Repr, DecidableEq

/-- Models line 390 of `core.ts`:
`const toolErrors = hasToolErrors(trajectory) || (lastExitInfo?.timedOut ?? false)`. -/
def turnToolErrors (traj : List TrajectoryStep) (lastExitInfo : Option ProcessExitInfo) : Bool :=
  hasToolErrors traj || ((lastExitInfo.map ProcessExitInfo.timedOut).getD false)

/-- Models line 389 of `core.ts`:
`const output = lastOutput || extractOutput(trajectory)` — the empty string
is falsy, so the derived output is used exactly when the session exposed no
terminal output text. -/
def turnOutput (lastOutput : String) (traj : List TrajectoryStep) : String :=
  if lastOutput = "" then extractOutput traj else lastOutput

/-- The loop body of `detectTrajectoryRichness`, with the `hasMessages`
accumulator: early exit with `full` on a thought, tool_call or plan step. -/
def detectLoop : List TrajectoryStep → Bool → String
  | [], hasMessages => if hasMessages then "messages-only" else "minimal"
  | st :: rest, hasMessages =>
    if st.isFullKind then "full" else detectLoop rest (hasMessages || st.isMessage)

/-- Models `detectTrajectoryRichness(trajectory)` of `core.ts`. -/
def detectTrajectoryRichness (traj : List TrajectoryStep) : String :=
  detectLoop traj false

/-! ## The per-case capture loop of `runCapture` (headless variant)

Each prompt case is run inside a `try`/`catch`; the outcome of one case is
either the collected updates, exit info and direct output of its turns, or a
thrown error with its message.  `caseResult` models the body of the loop at
lines 358-457 of `core.ts` (the parts that construct the result record), and
`runCaptureLoop` models the surrounding `for` loop, which pushes one record
per case and never aborts on a failed case. -/

/-- Outcome of executing one prompt case: success with the collected updates
(each paired with its clock reading), the last exit info and last direct
output — or a thrown error with its message. -/
inductive CaseOutcome where
  | ok (updates : List (ParsedUpdate × Int)) (lastExitInfo : Option ProcessExitInfo)
      (lastOutput : String)
  | err (message : String)
deriving Repr, DecidableEq

/-- The fields of a capture result record that the claims are about. -/
structure CaptureRecord where
  id : String
  output : String
  trajectory : List TrajectoryStep
  richness : String
  toolErrors : Bool
  errors : Option (List String)
deriving Repr, DecidableEq

/-- Models the construction of the result record for one prompt case:
the `try` branch computes the trajectory and derived signals; the `catch`
branch (lines 432-456) produces a record with empty trajectory, empty
output, `toolErrors = true`, richness `"minimal"` and the error message in
`errors`. -/
def caseResult (promptId : String) (startTime : Int) (outcome : CaseOutcome) :
    CaptureRecord :=
  match outcome with
  | .ok updates lastExitInfo lastOutput =>
      let traj := Headless.extractTrajectory updates startTime
      { id := promptId
        output := turnOutput lastOutput traj
        trajectory := traj
        richness := detectTrajectoryRichness traj
        toolErrors := turnToolErrors traj lastExitInfo
        errors := none }
  | .err message =>
      { id := promptId
        output := ""
        trajectory := []
        richness := "minimal"
        toolErrors := true
        errors := some [message] }

/-- Models the `for` loop of `runCapture`: one record per prompt case, each
written immediately; a failed case contributes its error record and the loop
proceeds. -/
def runCaptureLoop (cases : List (String × Int × CaseOutcome)) : List CaptureRecord :=
  cases.map (fun c => caseResult c.1 c.2.1 c.2.2)

/-! ## Adapter configuration schemas (`headless.schemas.ts`)

The zod schemas are embedded as parsers from a JSON value model to `Option`
of the parsed configuration.  Faithfulness notes:
* `z.object` in its default mode succeeds when every declared field parses
  and silently strips unknown keys; a declared optional field is absent when
  the key is missing and must parse when present.
* `z.union` tries its members in declaration order and returns the first
  success.
* The `refine` on `PromptConfigSchema` rejects exactly when
  `data.flag && data.stdin` is truthy, i.e. when `flag` is a present,
  non-empty string and `stdin` is present and `true`. -/

/-- A parsed JSON value (what `JSON.parse` yields and zod validates). -/
inductive Json where
  | null
  | bool (b : Bool)
  | num (n : Int)
  | str (s : String)
  | arr (elems : List Json)
  | obj (fields : List (String × Json))

/-- Field lookup in a parsed JSON object (first match; a parsed JS object
has no duplicate keys). -/
def lookupField : List (String × Json) → String → Option Json
  | [], _ => none
  | (k, v) :: rest, key => if k = key then some v else lookupField rest key

/-- Lookup of a field of a JSON value; non-objects have no fields. -/
def Json.lookup : Json → String → Option Json
  | .obj fields, key => lookupField fields key
  | _, _ => none

/-- Models `z.string()`. -/
def asStr : Json → Option String
  | .str s => some s
  | _ => none

/-- Models `z.boolean()`. -/
def asBool : Json → Option Bool
  | .bool b => some b
  | _ => none

/-- Models `z.number()` (the configuration documents carry integral
millisecond values). -/
def asNum : Json → Option Int
  | .num n => some n
  | _ => none

/-- Models `z.literal(n)` for a number literal. -/
def litNum (n : Int) (j : Json) : Option Unit :=
  (asNum j).bind fun m => if m = n then some () else none

/-- Models `z.enum([...])`. -/
def asEnum (vals : List String) (j : Json) : Option String :=
  (asStr j).bind fun s => if s ∈ vals then some s else none

/-- Models `z.array(p)`. -/
def asList (p : Json → Option α) : Json → Option (List α)
  | .arr elems => elems.mapM p
  | _ => none

/-- A required field of a `z.object`: the key must be present and parse. -/
def reqField (fields : List (String × Json)) (key : String) (p : Json → Option α) :
    Option α :=
  (lookupField fields key).bind p

/-- An optional field of a `z.object`: an absent key yields `none`; a
present key must parse. -/
def optField (fields : List (String × Json)) (key : String) (p : Json → Option α) :
    Option (Option α) :=
  match lookupField fields key with
  | none => some none
  | some v => (p v).map some

/-- Parsed `PromptConfigSchema` value. -/
structure PromptConfig where
  flag : Option String
  stdin : Option Bool
  stdinFormat : Option String
deriving Repr, DecidableEq

/-- Truthiness of `data.flag` in the refine clause: a present, non-empty
string. -/
def promptFlagTruthy (c : PromptConfig) : Bool :=
  match c.flag with
  | some f => !(f == "")
  | none => false

/-- Models `PromptConfigSchema.parse`: three optional fields, then the
refine rejecting simultaneous flag-based and stdin delivery. -/
def parsePromptConfig : Json → Option PromptConfig
  | .obj fields => do
      let flag ← optField fields "flag" asStr
      let sin ← optField fields "stdin" asBool
      let fmt ← optField fields "stdinFormat" (asEnum ["text", "json"])
      let c : PromptConfig := ⟨flag, sin, fmt⟩
      if promptFlagTruthy c ∧ c.stdin = some true then none else some c
  | _ => none

/-- Parsed `OutputConfigSchema` value. -/
structure OutputConfig where
  flag : String
  value : String
deriving Repr, DecidableEq

/-- Models `OutputConfigSchema.parse`. -/
def parseOutputConfig : Json → Option OutputConfig
  | .obj fields => do
      let f ← reqField fields "flag" asStr
      let v ← reqField fields "value" asStr
      some (⟨f, v⟩ : OutputConfig)
  | _ => none

/-- Parsed `ResumeConfigSchema` value. -/
structure ResumeConfig where
  flag : String
  sessionIdPath : String
deriving Repr, DecidableEq

/-- Models `ResumeConfigSchema.parse`. -/
def parseResumeConfig : Json → Option ResumeConfig
  | .obj fields => do
      let f ← reqField fields "flag" asStr
      let p ← reqField fields "sessionIdPath" asStr
      some (⟨f, p⟩ : ResumeConfig)
  | _ => none

/-- Parsed `ResultConfigSchema` value. -/
structure ResultConfig where
  matchPath : String
  matchValue : String
  contentPath : String
deriving Repr, DecidableEq

/-- Models `ResultConfigSchema.parse`. -/
def parseResultConfig : Json → Option ResultConfig
  | .obj fields => do
      let mp ← reqField fields "matchPath" asStr
      let mv ← reqField fields "matchValue" asStr
      let cp ← reqField fields "contentPath" asStr
      some (⟨mp, mv, cp⟩ : ResultConfig)
  | _ => none

/-- Parsed `OutputEventMatchSchema` value (source field name: `match`,
renamed here because `match` is a Lean keyword). -/
structure OutputEventMatch where
  path : String
  value : String
deriving Repr, DecidableEq

/-- Models `OutputEventMatchSchema.parse`. -/
def parseEventMatch : Json → Option OutputEventMatch
  | .obj fields => do
      let p ← reqField fields "path" asStr
      let v ← reqField fields "value" asStr
      some (⟨p, v⟩ : OutputEventMatch)
  | _ => none

/-- Parsed `OutputEventExtractSchema` value. -/
structure OutputEventExtract where
  content : Option String
  title : Option String
  status : Option String
deriving Repr, DecidableEq

/-- Models `OutputEventExtractSchema.parse`. -/
def parseEventExtract : Json → Option OutputEventExtract
  | .obj fields => do
      let c ← optField fields "content" asStr
      let t ← optField fields "title" asStr
      let s ← optField fields "status" asStr
      some (⟨c, t, s⟩ : OutputEventExtract)
  | _ => none

/-- Parsed `OutputEventMappingSchema` value (`matchClause` is the source
field `match`). -/
structure OutputEventMapping where
  matchClause : OutputEventMatch
  emitAs : String
  extract : Option OutputEventExtract
deriving Repr, DecidableEq

/-- Models `OutputEventMappingSchema.parse`. -/
def parseEventMapping : Json → Option OutputEventMapping
  | .obj fields => do
      let m ← reqField fields "match" parseEventMatch
      let e ← reqField fields "emitAs" (asEnum ["thought", "tool_call", "message", "plan"])
      let ex ← optField fields "extract" parseEventExtract
      some (⟨m, e, ex⟩ : OutputEventMapping)
  | _ => none

/-- The version-2 history template: either a flat turn-format string or a
structured pair of an optional system preamble and a turn format. -/
inductive HistoryTemplateV2 where
  | flat (s : String)
  | structured (system : Option String) (turnFormat : String)
deriving Repr, DecidableEq

/-- Models the `historyTemplate` union of version 2 (`z.union` tries the
string member first, then the object member). -/
def parseHistoryV2 (j : Json) : Option HistoryTemplateV2 :=
  match asStr j with
  | some s => some (.flat s)
  | none =>
    match j with
    | .obj fields => do
        let sys ← optField fields "system" asStr
        let tf ← reqField fields "turnFormat" asStr
        some (HistoryTemplateV2.structured sys tf)
    | _ => none

/-- Parsed `HeadlessAdapterSchemaV1` value. -/
structure AdapterV1 where
  name : String
  command : List String
  sessionMode : String
  prompt : PromptConfig
  output : OutputConfig
  autoApprove : Option (List String)
  resume : Option ResumeConfig
  cwdFlag : Option String
  outputEvents : List OutputEventMapping
  result : ResultConfig
  historyTemplate : Option String
deriving Repr, DecidableEq

/-- Parsed `HeadlessAdapterSchemaV2` value. -/
structure AdapterV2 where
  name : String
  command : List String
  sessionMode : String
  timeout : Option Int
  prompt : PromptConfig
  output : OutputConfig
  autoApprove : Option (List String)
  resume : Option ResumeConfig
  cwdFlag : Option String
  outputEvents : List OutputEventMapping
  result : ResultConfig
  historyTemplate : Option HistoryTemplateV2
deriving Repr, DecidableEq

/-- Models `HeadlessAdapterSchemaV1.parse` on an object, over its field
list. -/
def parseV1Fields (fields : List (String × Json)) : Option AdapterV1 := do
  let _ ← reqField fields "version" (litNum 1)
  let name ← reqField fields "name" asStr
  let command ← reqField fields "command" (asList asStr)
  let sessionMode ← reqField fields "sessionMode" (asEnum ["stream", "iterative"])
  let prompt ← reqField fields "prompt" parsePromptConfig
  let output ← reqField fields "output" parseOutputConfig
  let autoApprove ← optField fields "autoApprove" (asList asStr)
  let resume ← optField fields "resume" parseResumeConfig
  let cwdFlag ← optField fields "cwdFlag" asStr
  let outputEvents ← reqField fields "outputEvents" (asList parseEventMapping)
  let result ← reqField fields "result" parseResultConfig
  let historyTemplate ← optField fields "historyTemplate" asStr
  some ⟨name, command, sessionMode, prompt, output, autoApprove, resume, cwdFlag,
    outputEvents, result, historyTemplate⟩

/-- Models `HeadlessAdapterSchemaV1.parse`. -/
def parseV1 : Json → Option AdapterV1
  | .obj fields => parseV1Fields fields
  | _ => none

/-- Models `HeadlessAdapterSchemaV2.parse` on an object, over its field
list. -/
def parseV2Fields (fields : List (String × Json)) : Option AdapterV2 := do
  let _ ← reqField fields "version" (litNum 2)
  let name ← reqField fields "name" asStr
  let command ← reqField fields "command" (asList asStr)
  let sessionMode ← reqField fields "sessionMode" (asEnum ["stream", "iterative"])
  let timeout ← optField fields "timeout" asNum
  let prompt ← reqField fields "prompt" parsePromptConfig
  let output ← reqField fields "output" parseOutputConfig
  let autoApprove ← optField fields "autoApprove" (asList asStr)
  let resume ← optField fields "resume" parseResumeConfig
  let cwdFlag ← optField fields "cwdFlag" asStr
  let outputEvents ← reqField fields "outputEvents" (asList parseEventMapping)
  let result ← reqField fields "result" parseResultConfig
  let historyTemplate ← optField fields "historyTemplate" parseHistoryV2
  some ⟨name, command, sessionMode, timeout, prompt, output, autoApprove, resume,
    cwdFlag, outputEvents, result, historyTemplate⟩

/-- Models `HeadlessAdapterSchemaV2.parse`. -/
def parseV2 : Json → Option AdapterV2
  | .obj fields => parseV2Fields fields
  | _ => none

/-- Parsed `HeadlessAdapterSchema` value: version 1 or version 2. -/
inductive HeadlessAdapterConfig where
  | v1 (c : AdapterV1)
  | v2 (c : AdapterV2)
deriving Repr, DecidableEq

/-- Models `parseHeadlessConfig` of `headless.schemas.ts`: the union of the
two schema versions, tried in declaration order; `none` models a thrown
`ZodError`. -/
def parseHeadlessConfig (j : Json) : Option HeadlessAdapterConfig :=
  match parseV1 j with
  | some c => some (.v1 c)
  | none => (parseV2 j).map .v2

/-- The field names the two adapter schemas declare (their union); any other
key in a configuration document is unknown to the validator. -/
def schemaKeys : List String :=
  ["version", "name", "command", "sessionMode", "timeout", "prompt", "output",
    "autoApprove", "resume", "cwdFlag", "outputEvents", "result", "historyTemplate"]

/-- Well-formedness invariant maintained by both extraction loops: every
correlation entry points inside the trajectory at a `tool_call` step, keys
are distinct, pointed-at indices are distinct, and the number of `tool_call`
steps in the trajectory equals the number of correlation entries. -/
def WF (s : CorrState) : Prop :=
  (∀ kv ∈ s.calls, ∃ st, s.traj[kv.2.idx]? = some st ∧ st.isToolCall = true) ∧
  (s.calls.map Prod.fst).Nodup ∧
  (s.calls.map (fun kv => kv.2.idx)).Nodup ∧
  countToolCalls s.traj = s.calls.length

/-! ## Helper lemmas -/

theorem findCall_eq_none_iff {m : List (String × CallEntry)} {k : String} :
    findCall m k = none ↔ k ∉ m.map Prod.fst := by
  induction m with
  | nil => simp [findCall]
  | cons kv rest ih =>
    obtain ⟨k', e⟩ := kv
    simp only [findCall, List.map_cons, List.mem_cons]
    by_cases h : k' = k
    · subst h; simp
    · simp only [if_neg h, ih]
      constructor
      · intro hk hmem
        rcases hmem with heq | hmem
        · exact h heq.symm
        · exact hk hmem
      · intro hk hmem
        exact hk (Or.inr hmem)

theorem findCall_mem {m : List (String × CallEntry)} {k : String} {e : CallEntry}
    (h : findCall m k = some e) : (k, e) ∈ m := by
  induction m with
  | nil => simp [findCall] at h
  | cons kv rest ih =>
    obtain ⟨k', e'⟩ := kv
    by_cases hk : k' = k
    · subst hk
      simp [findCall] at h
      simp [h]
    · simp [findCall, hk] at h
      exact List.mem_cons_of_mem _ (ih h)

theorem findCall_cons_ne {m : List (String × CallEntry)} {k k' : String} {e : CallEntry}
    (h : k' ≠ k) : findCall ((k', e) :: m) k = findCall m k := by
  simp [findCall, h]

theorem length_modifyAt (f : TrajectoryStep → TrajectoryStep)
    (l : List TrajectoryStep) (n : Nat) : (modifyAt f l n).length = l.length := by
  induction l generalizing n with
  | nil => rfl
  | cons s rest ih => cases n <;> simp [modifyAt, ih]

theorem getElem?_modifyAt_self (f : TrajectoryStep → TrajectoryStep)
    (l : List TrajectoryStep) (n : Nat) :
    (modifyAt f l n)[n]? = l[n]?.map f := by
  induction l generalizing n with
  | nil => cases n <;> rfl
  | cons s rest ih => cases n <;> simp [modifyAt, ih]

theorem getElem?_modifyAt_ne (f : TrajectoryStep → TrajectoryStep)
    (l : List TrajectoryStep) {n m : Nat} (h : n ≠ m) :
    (modifyAt f l n)[m]? = l[m]? := by
  induction l generalizing n m with
  | nil => cases n <;> rfl
  | cons s rest ih =>
    cases n with
    | zero =>
      cases m with
      | zero => exact absurd rfl h
      | succ m => simp [modifyAt]
    | succ n =>
      cases m with
      | zero => simp [modifyAt]
      | succ m => simpa [modifyAt] using ih (fun hh => h (by omega))

theorem getElem?_some_lt {l : List TrajectoryStep} {n : Nat} {a : TrajectoryStep}
    (h : l[n]? = some a) : n < l.length := by
  by_contra hn
  rw [List.getElem?_eq_none (by omega)] at h
  exact Option.noConfusion h

theorem countToolCalls_append (l l' : List TrajectoryStep) :
    countToolCalls (l ++ l') = countToolCalls l + countToolCalls l' := by
  simp [countToolCalls, List.filter_append]

theorem countToolCalls_modifyAt {f : TrajectoryStep → TrajectoryStep}
    (hf : ∀ x, (f x).isToolCall = x.isToolCall)
    (l : List TrajectoryStep) (n : Nat) :
    countToolCalls (modifyAt f l n) = countToolCalls l := by
  induction l generalizing n with
  | nil => rfl
  | cons s rest ih =>
    cases n with
    | zero =>
      simp only [modifyAt, countToolCalls, List.filter_cons, hf]
      split <;> simp
    | succ n =>
      have hrec := ih n
      simp only [countToolCalls] at hrec
      simp only [modifyAt, countToolCalls, List.filter_cons]
      split <;> simp [hrec]

theorem foldl_inv {σ α : Type} {P : σ → Prop} {f : σ → α → σ} :
    ∀ {l : List α} {s : σ}, (∀ s a, a ∈ l → P s → P (f s a)) → P s → P (l.foldl f s) := by
  intro l
  induction l with
  | nil => intro s _ hs; exact hs
  | cons a rest ih =>
    intro s h hs
    exact ih (fun s' a' ha' => h s' a' (List.mem_cons_of_mem _ ha'))
      (h s a (List.mem_cons_self _ _) hs)


theorem wf_empty : WF ⟨[], []⟩ := by
  refine ⟨?_, List.nodup_nil, List.nodup_nil, rfl⟩
  intro kv hkv
  simp at hkv

theorem wf_append_nonTool {s : CorrState} {st : TrajectoryStep}
    (h : WF s) (hst : st.isToolCall = false) :
    WF { s with traj := s.traj ++ [st] } := by
  obtain ⟨hpt, hkeys, hidx, hcount⟩ := h
  refine ⟨?_, hkeys, hidx, ?_⟩
  · intro kv hkv
    obtain ⟨stp, hg, htc⟩ := hpt kv hkv
    exact ⟨stp, by rw [List.getElem?_append_left (getElem?_some_lt hg)]; exact hg, htc⟩
  · rw [countToolCalls_append, hcount]
    simp [countToolCalls, List.filter_cons, hst]

theorem wf_merge {s : CorrState} {f : TrajectoryStep → TrajectoryStep} {i : Nat}
    (h : WF s) (hf : ∀ x, (f x).isToolCall = x.isToolCall) :
    WF { s with traj := modifyAt f s.traj i } := by
  obtain ⟨hpt, hkeys, hidx, hcount⟩ := h
  refine ⟨?_, hkeys, hidx, ?_⟩
  · intro kv hkv
    obtain ⟨stp, hg, htc⟩ := hpt kv hkv
    by_cases hi : i = kv.2.idx
    · subst hi
      refine ⟨f stp, ?_, by rw [hf]; exact htc⟩
      rw [getElem?_modifyAt_self, hg]
      rfl
    · exact ⟨stp, by rw [getElem?_modifyAt_ne _ _ hi]; exact hg, htc⟩
  · rw [countToolCalls_modifyAt hf]
    exact hcount

theorem wf_insert {s : CorrState} {key name status : String} {inp out : Option String}
    {ts start : Int} (h : WF s) (hfind : findCall s.calls key = none) :
    WF { traj := s.traj ++ [.tool_call name status inp out ts none],
         calls := (key, ⟨start, s.traj.length⟩) :: s.calls } := by
  obtain ⟨hpt, hkeys, hidx, hcount⟩ := h
  refine ⟨?_, ?_, ?_, ?_⟩
  · intro kv hkv
    rcases List.mem_cons.mp hkv with heq | hmem
    · subst heq
      exact ⟨.tool_call name status inp out ts none, List.getElem?_concat_length .., rfl⟩
    · obtain ⟨stp, hg, htc⟩ := hpt kv hmem
      exact ⟨stp, by rw [List.getElem?_append_left (getElem?_some_lt hg)]; exact hg, htc⟩
  · exact List.nodup_cons.mpr ⟨findCall_eq_none_iff.mp hfind, hkeys⟩
  · refine List.nodup_cons.mpr ⟨?_, hidx⟩
    intro hmem
    obtain ⟨kv, hkv, hkvidx⟩ := List.mem_map.mp hmem
    obtain ⟨stp, hg, _⟩ := hpt kv hkv
    have hlt := getElem?_some_lt hg
    have hkvidx2 : kv.2.idx = s.traj.length := hkvidx
    omega
  · rw [countToolCalls_append, hcount]
    rfl

theorem isToolCall_completeStep (st : String) (d : Int) (x : TrajectoryStep) :
    (Headless.completeStep st d x).isToolCall = x.isToolCall := by
  cases x <;> rfl

theorem isToolCall_mergeStep (st : Option String) (c ro : Option String) (d : Int)
    (x : TrajectoryStep) : (ACP.mergeStep st c ro d x).isToolCall = x.isToolCall := by
  cases x <;> rfl

/-! Branch equation lemmas for the headless loop body. -/

theorem headlessStep_thought {u : ParsedUpdate} (h : u.type = "thought")
    (t0 now : Int) (s : CorrState) :
    Headless.step t0 s (u, now) =
      { s with traj := s.traj ++ [.thought (u.content.getD "") (now - t0)] } := by
  simp [Headless.step, h]

theorem headlessStep_message {u : ParsedUpdate} (h : u.type = "message")
    (t0 now : Int) (s : CorrState) :
    Headless.step t0 s (u, now) =
      { s with traj := s.traj ++ [.message (u.content.getD "") (now - t0)] } := by
  simp [Headless.step, h]

theorem headlessStep_plan {u : ParsedUpdate} (h : u.type = "plan")
    (t0 now : Int) (s : CorrState) :
    Headless.step t0 s (u, now) =
      { s with traj := s.traj ++ [.plan [] (now - t0)] } := by
  simp [Headless.step, h]

theorem headlessStep_other {u : ParsedUpdate} (h1 : u.type ≠ "thought")
    (h2 : u.type ≠ "message") (h3 : u.type ≠ "tool_call") (h4 : u.type ≠ "plan")
    (t0 now : Int) (s : CorrState) :
    Headless.step t0 s (u, now) = s := by
  simp [Headless.step, h1, h2, h3, h4]

theorem headlessStep_tool_new {u : ParsedUpdate} {s : CorrState} {now : Int}
    (h : u.type = "tool_call") (hfc : findCall s.calls (Headless.derivedId u now) = none)
    (t0 : Int) :
    Headless.step t0 s (u, now) =
      { traj := s.traj ++
          [.tool_call (u.title.getD "unknown") (u.status.getD "pending") none none
            (now - t0) none],
        calls := (Headless.derivedId u now, ⟨now - t0, s.traj.length⟩) :: s.calls } := by
  simp only [Headless.step, h]
  rw [hfc]
  simp

theorem headlessStep_tool_merge {u : ParsedUpdate} {s : CorrState} {now : Int}
    {e : CallEntry} (h : u.type = "tool_call")
    (hfc : findCall s.calls (Headless.derivedId u now) = some e)
    (hst : u.status = some "completed") (t0 : Int) :
    Headless.step t0 s (u, now) =
      { s with traj :=
          modifyAt (Headless.completeStep "completed" ((now - t0) - e.start)) s.traj e.idx } := by
  simp only [Headless.step, h]
  rw [hfc]
  simp [hst]

theorem headlessStep_tool_drop {u : ParsedUpdate} {s : CorrState} {now : Int}
    {e : CallEntry} (h : u.type = "tool_call")
    (hfc : findCall s.calls (Headless.derivedId u now) = some e)
    (hst : u.status ≠ some "completed") (t0 : Int) :
    Headless.step t0 s (u, now) = s := by
  simp only [Headless.step, h]
  rw [hfc]
  simp [hst]

/-- One headless loop iteration preserves well-formedness. -/
theorem wf_headlessStep (t0 : Int) (s : CorrState) (a : ParsedUpdate × Int)
    (h : WF s) : WF (Headless.step t0 s a) := by
  obtain ⟨u, now⟩ := a
  by_cases h1 : u.type = "thought"
  · rw [headlessStep_thought h1]; exact wf_append_nonTool h rfl
  by_cases h2 : u.type = "message"
  · rw [headlessStep_message h2]; exact wf_append_nonTool h rfl
  by_cases h3 : u.type = "tool_call"
  · rcases hfc : findCall s.calls (Headless.derivedId u now) with _ | e
    · rw [headlessStep_tool_new h3 hfc]
      exact wf_insert h hfc
    · by_cases hst : u.status = some "completed"
      · rw [headlessStep_tool_merge h3 hfc hst]
        exact wf_merge h (isToolCall_completeStep _ _)
      · rw [headlessStep_tool_drop h3 hfc hst]
        exact h
  by_cases h4 : u.type = "plan"
  · rw [headlessStep_plan h4]; exact wf_append_nonTool h rfl
  · rw [headlessStep_other h1 h2 h3 h4]; exact h

/-! Branch equation lemmas for the tool_call arm of the ACP loop body. -/

theorem acpStep_tool_new {s : CorrState} {id : String} {now : Int}
    (title : String) (status rawInput content rawOutput : Option String)
    (hfc : findCall s.calls id = none) (t0 : Int) :
    ACP.step t0 s (.tool_call id title status rawInput content rawOutput, now) =
      { traj := s.traj ++
          [.tool_call title (status.getD "pending") rawInput none (now - t0) none],
        calls := (id, ⟨now - t0, s.traj.length⟩) :: s.calls } := by
  simp only [ACP.step]
  rw [hfc]

theorem acpStep_tool_merge {s : CorrState} {id : String} {now : Int} {e : CallEntry}
    (title : String) (status rawInput content rawOutput : Option String)
    (hfc : findCall s.calls id = some e) (t0 : Int) :
    ACP.step t0 s (.tool_call id title status rawInput content rawOutput, now) =
      { s with traj :=
          (modifyAt (ACP.mergeStep status content rawOutput ((now - t0) - e.start)) s.traj e.idx) } := by
  simp only [ACP.step]
  rw [hfc]

/-- One ACP loop iteration preserves well-formedness. -/
theorem wf_acpStep (t0 : Int) (s : CorrState) (a : ACP.SessionUpdate × Int)
    (h : WF s) : WF (ACP.step t0 s a) := by
  obtain ⟨u, now⟩ := a
  cases u with
  | agent_thought_chunk c =>
    cases c with
    | text t => exact wf_append_nonTool h rfl
    | other => exact h
  | agent_message_chunk c =>
    cases c with
    | text t => exact wf_append_nonTool h rfl
    | other => exact h
  | tool_call id title status rawInput content rawOutput =>
    rcases hfc : findCall s.calls id with _ | e
    · rw [acpStep_tool_new title status rawInput content rawOutput hfc]
      exact wf_insert h hfc
    · rw [acpStep_tool_merge title status rawInput content rawOutput hfc]
      exact wf_merge h (isToolCall_mergeStep _ _ _ _)
  | plan entries => exact wf_append_nonTool h rfl
  | other => exact h

/-! Frame lemmas: an update whose derived identity differs from `x` leaves
the correlation entry of `x` and the step it points at untouched. -/

theorem headlessStep_calls_other (t0 : Int) (s : CorrState) (u : ParsedUpdate) (now : Int)
    (x : String) (hx : u.type = "tool_call" → Headless.derivedId u now ≠ x) :
    findCall (Headless.step t0 s (u, now)).calls x = findCall s.calls x := by
  by_cases h1 : u.type = "thought"
  · rw [headlessStep_thought h1]
  by_cases h2 : u.type = "message"
  · rw [headlessStep_message h2]
  by_cases h3 : u.type = "tool_call"
  · rcases hfc : findCall s.calls (Headless.derivedId u now) with _ | e
    · rw [headlessStep_tool_new h3 hfc]
      exact findCall_cons_ne (hx h3)
    · by_cases hst : u.status = some "completed"
      · rw [headlessStep_tool_merge h3 hfc hst]
      · rw [headlessStep_tool_drop h3 hfc hst]
  by_cases h4 : u.type = "plan"
  · rw [headlessStep_plan h4]
  · rw [headlessStep_other h1 h2 h3 h4]

theorem headlessStep_traj_other (t0 : Int) {s : CorrState} (u : ParsedUpdate) (now : Int)
    {x : String} {e : CallEntry} (hwf : WF s)
    (hx : u.type = "tool_call" → Headless.derivedId u now ≠ x)
    (hfind : findCall s.calls x = some e) :
    (Headless.step t0 s (u, now)).traj[e.idx]? = s.traj[e.idx]? := by
  have hbound : e.idx < s.traj.length := by
    obtain ⟨stp, hg, _⟩ := hwf.1 (x, e) (findCall_mem hfind)
    exact getElem?_some_lt hg
  by_cases h1 : u.type = "thought"
  · rw [headlessStep_thought h1]
    exact List.getElem?_append_left hbound
  by_cases h2 : u.type = "message"
  · rw [headlessStep_message h2]
    exact List.getElem?_append_left hbound
  by_cases h3 : u.type = "tool_call"
  · rcases hfc : findCall s.calls (Headless.derivedId u now) with _ | e'
    · rw [headlessStep_tool_new h3 hfc]
      exact List.getElem?_append_left hbound
    · by_cases hst : u.status = some "completed"
      · rw [headlessStep_tool_merge h3 hfc hst]
        refine getElem?_modifyAt_ne _ _ ?_
        intro hidx
        have hpair := List.inj_on_of_nodup_map hwf.2.2.1
          (findCall_mem hfc) (findCall_mem hfind) hidx
        have : Headless.derivedId u now = x := congrArg Prod.fst hpair
        exact hx h3 this
      · rw [headlessStep_tool_drop h3 hfc hst]
  by_cases h4 : u.type = "plan"
  · rw [headlessStep_plan h4]
    exact List.getElem?_append_left hbound
  · rw [headlessStep_other h1 h2 h3 h4]

/-! Length lemmas: a `tool_call` classification whose derived identity is
already open never changes the length of the trajectory (it merges in place
or is dropped) and never changes the correlation map. -/

theorem headlessStep_existing (t0 : Int) (s : CorrState) (u : ParsedUpdate) (now : Int)
    (h3 : u.type = "tool_call")
    (hfc : findCall s.calls (Headless.derivedId u now) ≠ none) :
    (Headless.step t0 s (u, now)).traj.length = s.traj.length ∧
    (Headless.step t0 s (u, now)).calls = s.calls := by
  rcases hex : findCall s.calls (Headless.derivedId u now) with _ | e
  · exact absurd hex hfc
  · by_cases hst : u.status = some "completed"
    · rw [headlessStep_tool_merge h3 hex hst]
      exact ⟨length_modifyAt _ _ _, rfl⟩
    · rw [headlessStep_tool_drop h3 hex hst]
      exact ⟨rfl, rfl⟩

theorem acpStep_existing (t0 : Int) (s : CorrState) (id title : String)
    (status rawInput content rawOutput : Option String) (now : Int)
    (hfc : findCall s.calls id ≠ none) :
    (ACP.step t0 s (.tool_call id title status rawInput content rawOutput, now)).traj.length
      = s.traj.length ∧
    (ACP.step t0 s (.tool_call id title status rawInput content rawOutput, now)).calls
      = s.calls := by
  rcases hex : findCall s.calls id with _ | e
  · exact absurd hex hfc
  · rw [acpStep_tool_merge title status rawInput content rawOutput hex]
    exact ⟨length_modifyAt _ _ _, rfl⟩

/-- Well-formedness of the final state of the headless extraction loop. -/
theorem wf_headlessRun (updates : List (ParsedUpdate × Int)) (t0 : Int) :
    WF (Headless.run updates t0) :=
  foldl_inv (fun s a _ hs => wf_headlessStep t0 s a hs) wf_empty

/-- Well-formedness of the final state of the ACP extraction loop. -/
theorem wf_acpRun (notifications : List (ACP.SessionUpdate × Int)) (t0 : Int) :
    WF (ACP.run notifications t0) :=
  foldl_inv (fun s a _ hs => wf_acpStep t0 s a hs) wf_empty

/-! ## The tool-call merge law (headless extractor) -/

/-- Invariant carried along the headless loop while identity `x` is closed. -/
theorem fold_closed_inv (t0 : Int) (x : String) {l : List (ParsedUpdate × Int)}
    {s : CorrState}
    (hl : ∀ a ∈ l, a.1.type = "tool_call" → Headless.derivedId a.1 a.2 ≠ x)
    (h : WF s ∧ findCall s.calls x = none) :
    WF (l.foldl (Headless.step t0) s) ∧
      findCall (l.foldl (Headless.step t0) s).calls x = none := by
  refine foldl_inv (P := fun s => WF s ∧ findCall s.calls x = none) ?_ h
  intro s' a ha hps
  obtain ⟨u, now⟩ := a
  refine ⟨wf_headlessStep t0 s' (u, now) hps.1, ?_⟩
  rw [headlessStep_calls_other t0 s' u now x (hl (u, now) ha)]
  exact hps.2

/-- Invariant carried along the headless loop while identity `x` is open with
entry `e` and its emitted step is `st`. -/
theorem fold_open_inv (t0 : Int) (x : String) (e : CallEntry) (st : TrajectoryStep)
    {l : List (ParsedUpdate × Int)} {s : CorrState}
    (hl : ∀ a ∈ l, a.1.type = "tool_call" → Headless.derivedId a.1 a.2 ≠ x)
    (h : WF s ∧ findCall s.calls x = some e ∧ s.traj[e.idx]? = some st) :
    WF (l.foldl (Headless.step t0) s) ∧
      findCall (l.foldl (Headless.step t0) s).calls x = some e ∧
      (l.foldl (Headless.step t0) s).traj[e.idx]? = some st := by
  refine foldl_inv
    (P := fun s => WF s ∧ findCall s.calls x = some e ∧ s.traj[e.idx]? = some st) ?_ h
  intro s' a ha hps
  obtain ⟨u, now⟩ := a
  have hx := hl (u, now) ha
  refine ⟨wf_headlessStep t0 s' (u, now) hps.1, ?_, ?_⟩
  · rw [headlessStep_calls_other t0 s' u now x hx]
    exact hps.2.1
  · rw [headlessStep_traj_other t0 u now hps.1 hx hps.2.1]
    exact hps.2.2

/-- C1: a classification sequence open(x), update(x, running), complete(x,
completed) — with no other update deriving identity `x` — yields exactly one
`tool_call` step for `x`, whose final status is `"completed"` with duration
`≥ 0` (the clock being monotone, `t1 ≤ t3`); the intermediate running update
is a no-op: the whole run equals the run with that update removed, so it
appends no step and leaves the open entry unchanged. -/
theorem merge_law_headless
    (t0 t1 t2 t3 : Int) (x : String)
    (us1 us2 us3 us4 : List (ParsedUpdate × Int)) (uOpen uRun uComp : ParsedUpdate)
    (hOt : uOpen.type = "tool_call") (hOtitle : uOpen.title = some x)
    (hRt : uRun.type = "tool_call") (hRtitle : uRun.title = some x)
    (hRst : uRun.status = some "running")
    (hCt : uComp.type = "tool_call") (hCtitle : uComp.title = some x)
    (hCst : uComp.status = some "completed")
    (havoid : ∀ a ∈ us1 ++ us2 ++ us3 ++ us4,
      a.1.type = "tool_call" → Headless.derivedId a.1 a.2 ≠ x)
    (ht : t1 ≤ t3) :
    (((Headless.run (us1 ++ (uOpen, t1) :: us2 ++ (uRun, t2) :: us3 ++ (uComp, t3) :: us4)
        t0).calls.map Prod.fst).count x = 1) ∧
    (∃ e, findCall (Headless.run
        (us1 ++ (uOpen, t1) :: us2 ++ (uRun, t2) :: us3 ++ (uComp, t3) :: us4)
        t0).calls x = some e ∧
      ∃ d, (Headless.run
          (us1 ++ (uOpen, t1) :: us2 ++ (uRun, t2) :: us3 ++ (uComp, t3) :: us4)
          t0).traj[e.idx]? =
          some (.tool_call x "completed" none none (t1 - t0) (some d)) ∧ 0 ≤ d) ∧
    countToolCalls (Headless.run
        (us1 ++ (uOpen, t1) :: us2 ++ (uRun, t2) :: us3 ++ (uComp, t3) :: us4) t0).traj =
      (Headless.run
        (us1 ++ (uOpen, t1) :: us2 ++ (uRun, t2) :: us3 ++ (uComp, t3) :: us4)
        t0).calls.length ∧
    Headless.run (us1 ++ (uOpen, t1) :: us2 ++ (uRun, t2) :: us3 ++ (uComp, t3) :: us4) t0 =
      Headless.run (us1 ++ (uOpen, t1) :: us2 ++ us3 ++ (uComp, t3) :: us4) t0 := by
  have hav1 : ∀ a ∈ us1, a.1.type = "tool_call" → Headless.derivedId a.1 a.2 ≠ x :=
    fun a ha => havoid a (by simp [ha])
  have hav2 : ∀ a ∈ us2, a.1.type = "tool_call" → Headless.derivedId a.1 a.2 ≠ x :=
    fun a ha => havoid a (by simp [ha])
  have hav3 : ∀ a ∈ us3, a.1.type = "tool_call" → Headless.derivedId a.1 a.2 ≠ x :=
    fun a ha => havoid a (by simp [ha])
  have hav4 : ∀ a ∈ us4, a.1.type = "tool_call" → Headless.derivedId a.1 a.2 ≠ x :=
    fun a ha => havoid a (by simp [ha])
  have hidO : Headless.derivedId uOpen t1 = x := by simp [Headless.derivedId, hOtitle]
  have hidR : Headless.derivedId uRun t2 = x := by simp [Headless.derivedId, hRtitle]
  have hidC : Headless.derivedId uComp t3 = x := by simp [Headless.derivedId, hCtitle]
  set f := Headless.step t0 with hf
  have hU0 : Headless.run
      (us1 ++ (uOpen, t1) :: us2 ++ (uRun, t2) :: us3 ++ (uComp, t3) :: us4) t0 =
      List.foldl f (f (List.foldl f
        (f (List.foldl f (f (List.foldl f ⟨[], []⟩ us1) (uOpen, t1)) us2) (uRun, t2))
        us3) (uComp, t3)) us4 := by
    simp only [hf, Headless.run, List.foldl_append, List.foldl_cons]
  have hV0 : Headless.run (us1 ++ (uOpen, t1) :: us2 ++ us3 ++ (uComp, t3) :: us4) t0 =
      List.foldl f (f (List.foldl f
        (List.foldl f (f (List.foldl f ⟨[], []⟩ us1) (uOpen, t1)) us2)
        us3) (uComp, t3)) us4 := by
    simp only [hf, Headless.run, List.foldl_append, List.foldl_cons]
  set s1 := List.foldl f (⟨[], []⟩ : CorrState) us1 with hs1
  set s2 := f s1 (uOpen, t1) with hs2
  set s3 := List.foldl f s2 us2 with hs3
  -- closed invariant up to the opening update
  have hP1 : WF s1 ∧ findCall s1.calls x = none :=
    fold_closed_inv t0 x hav1 ⟨wf_empty, rfl⟩
  have hfcO : findCall s1.calls (Headless.derivedId uOpen t1) = none := by
    rw [hidO]; exact hP1.2
  have hs2eq : s2 = ⟨s1.traj ++
      [.tool_call (uOpen.title.getD "unknown") (uOpen.status.getD "pending") none none
        (t1 - t0) none],
      (Headless.derivedId uOpen t1, ⟨t1 - t0, s1.traj.length⟩) :: s1.calls⟩ :=
    headlessStep_tool_new hOt hfcO t0
  have hnameO : uOpen.title.getD "unknown" = x := by rw [hOtitle]; rfl
  have hwf2 : WF s2 := wf_headlessStep t0 s1 (uOpen, t1) hP1.1
  have hfind2 : findCall s2.calls x = some ⟨t1 - t0, s1.traj.length⟩ := by
    rw [hs2eq]
    simp [findCall, hidO]
  have htraj2 : s2.traj[s1.traj.length]? =
      some (.tool_call x (uOpen.status.getD "pending") none none (t1 - t0) none) := by
    rw [hs2eq]
    simp only [hnameO]
    exact List.getElem?_concat_length ..
  -- open invariant through us2
  have hP3 : WF s3 ∧ findCall s3.calls x = some ⟨t1 - t0, s1.traj.length⟩ ∧
      s3.traj[(⟨t1 - t0, s1.traj.length⟩ : CallEntry).idx]? =
        some (.tool_call x (uOpen.status.getD "pending") none none (t1 - t0) none) :=
    fold_open_inv t0 x ⟨t1 - t0, s1.traj.length⟩ _ hav2 ⟨hwf2, hfind2, htraj2⟩
  -- the running update is dropped
  have hfcR : findCall s3.calls (Headless.derivedId uRun t2) =
      some ⟨t1 - t0, s1.traj.length⟩ := by
    rw [hidR]; exact hP3.2.1
  have hnoop : f s3 (uRun, t2) = s3 :=
    headlessStep_tool_drop hRt hfcR (by rw [hRst]; simp) t0
  rw [hnoop] at hU0
  set s5 := List.foldl f s3 us3 with hs5
  set s6 := f s5 (uComp, t3) with hs6
  set final := List.foldl f s6 us4 with hfin
  -- open invariant through us3
  have hP5 : WF s5 ∧ findCall s5.calls x = some ⟨t1 - t0, s1.traj.length⟩ ∧
      s5.traj[(⟨t1 - t0, s1.traj.length⟩ : CallEntry).idx]? =
        some (.tool_call x (uOpen.status.getD "pending") none none (t1 - t0) none) :=
    fold_open_inv t0 x ⟨t1 - t0, s1.traj.length⟩ _ hav3 hP3
  -- the completing update merges in place
  have hfcC : findCall s5.calls (Headless.derivedId uComp t3) =
      some ⟨t1 - t0, s1.traj.length⟩ := by
    rw [hidC]; exact hP5.2.1
  have hs6eq : s6 = { s5 with traj :=
      (modifyAt (Headless.completeStep "completed"
        ((t3 - t0) - (⟨t1 - t0, s1.traj.length⟩ : CallEntry).start)) s5.traj
        (⟨t1 - t0, s1.traj.length⟩ : CallEntry).idx) } :=
    headlessStep_tool_merge hCt hfcC hCst t0
  have hwf6 : WF s6 := wf_headlessStep t0 s5 (uComp, t3) hP5.1
  have hfind6 : findCall s6.calls x = some ⟨t1 - t0, s1.traj.length⟩ := by
    rw [hs6eq]; exact hP5.2.1
  have htraj6 : s6.traj[(⟨t1 - t0, s1.traj.length⟩ : CallEntry).idx]? =
      some (.tool_call x "completed" none none (t1 - t0)
        (some ((t3 - t0) - (t1 - t0)))) := by
    rw [hs6eq]
    show (modifyAt _ s5.traj _)[(⟨t1 - t0, s1.traj.length⟩ : CallEntry).idx]? = _
    rw [getElem?_modifyAt_self, hP5.2.2]
    rfl
  -- open invariant through us4
  have hPf : WF final ∧ findCall final.calls x = some ⟨t1 - t0, s1.traj.length⟩ ∧
      final.traj[(⟨t1 - t0, s1.traj.length⟩ : CallEntry).idx]? =
        some (.tool_call x "completed" none none (t1 - t0)
          (some ((t3 - t0) - (t1 - t0)))) :=
    fold_open_inv t0 x ⟨t1 - t0, s1.traj.length⟩ _ hav4 ⟨hwf6, hfind6, htraj6⟩
  -- assemble the four conclusions
  rw [hU0, hV0]
  refine ⟨?_, ⟨⟨t1 - t0, s1.traj.length⟩, hPf.2.1, (t3 - t0) - (t1 - t0), hPf.2.2, by omega⟩,
    hPf.1.2.2.2, rfl⟩
  exact List.count_eq_one_of_mem hPf.1.2.1
    (List.mem_map_of_mem Prod.fst (findCall_mem hPf.2.1))

/-- Witness: the merge law at the concrete three-update sequence of the
specification, identity `"t"`, clock readings 1, 2, 3 from start time 0. -/
theorem merge_law_headless_witness :
    (((Headless.run [(⟨"tool_call", none, some "t", some "pending"⟩, 1),
        (⟨"tool_call", none, some "t", some "running"⟩, 2),
        (⟨"tool_call", none, some "t", some "completed"⟩, 3)] 0).calls.map
        Prod.fst).count "t" = 1) ∧
    (∃ e, findCall (Headless.run [(⟨"tool_call", none, some "t", some "pending"⟩, 1),
        (⟨"tool_call", none, some "t", some "running"⟩, 2),
        (⟨"tool_call", none, some "t", some "completed"⟩, 3)] 0).calls "t" = some e ∧
      ∃ d, (Headless.run [(⟨"tool_call", none, some "t", some "pending"⟩, 1),
          (⟨"tool_call", none, some "t", some "running"⟩, 2),
          (⟨"tool_call", none, some "t", some "completed"⟩, 3)] 0).traj[e.idx]? =
          some (.tool_call "t" "completed" none none (1 - 0) (some d)) ∧ 0 ≤ d) ∧
    countToolCalls (Headless.run [(⟨"tool_call", none, some "t", some "pending"⟩, 1),
        (⟨"tool_call", none, some "t", some "running"⟩, 2),
        (⟨"tool_call", none, some "t", some "completed"⟩, 3)] 0).traj =
      (Headless.run [(⟨"tool_call", none, some "t", some "pending"⟩, 1),
        (⟨"tool_call", none, some "t", some "running"⟩, 2),
        (⟨"tool_call", none, some "t", some "completed"⟩, 3)] 0).calls.length ∧
    Headless.run [(⟨"tool_call", none, some "t", some "pending"⟩, 1),
        (⟨"tool_call", none, some "t", some "running"⟩, 2),
        (⟨"tool_call", none, some "t", some "completed"⟩, 3)] 0 =
      Headless.run [(⟨"tool_call", none, some "t", some "pending"⟩, 1),
        (⟨"tool_call", none, some "t", some "completed"⟩, 3)] 0 :=
  merge_law_headless 0 1 2 3 "t" [] [] [] []
    ⟨"tool_call", none, some "t", some "pending"⟩
    ⟨"tool_call", none, some "t", some "running"⟩
    ⟨"tool_call", none, some "t", some "completed"⟩
    rfl rfl rfl rfl rfl rfl rfl rfl (by simp) (by decide)

/-- C2: each extractor emits at most one `tool_call` step per derived
correlation identity.  A `tool_call` classification whose identity is
already open never appends a step (the trajectory length is unchanged), and
in every final state the open identities are pairwise distinct and number
exactly as many as the emitted `tool_call` steps. -/
theorem at_most_one_step_per_id :
    (∀ (t0 : Int) (s : CorrState) (u : ParsedUpdate) (now : Int),
      u.type = "tool_call" →
      findCall s.calls (Headless.derivedId u now) ≠ none →
      (Headless.step t0 s (u, now)).traj.length = s.traj.length) ∧
    (∀ (t0 : Int) (s : CorrState) (id title : String)
        (status rawInput content rawOutput : Option String) (now : Int),
      findCall s.calls id ≠ none →
      (ACP.step t0 s (.tool_call id title status rawInput content rawOutput, now)).traj.length
        = s.traj.length) ∧
    (∀ (updates : List (ParsedUpdate × Int)) (t0 : Int),
      ((Headless.run updates t0).calls.map Prod.fst).Nodup ∧
      countToolCalls (Headless.run updates t0).traj =
        (Headless.run updates t0).calls.length) ∧
    (∀ (notifications : List (ACP.SessionUpdate × Int)) (t0 : Int),
      ((ACP.run notifications t0).calls.map Prod.fst).Nodup ∧
      countToolCalls (ACP.run notifications t0).traj =
        (ACP.run notifications t0).calls.length) := by
  refine ⟨?_, ?_, ?_, ?_⟩
  · intro t0 s u now h3 hfc
    exact (headlessStep_existing t0 s u now h3 hfc).1
  · intro t0 s id title status rawInput content rawOutput now hfc
    exact (acpStep_existing t0 s id title status rawInput content rawOutput now hfc).1
  · intro updates t0
    have h := wf_headlessRun updates t0
    exact ⟨h.2.1, h.2.2.2⟩
  · intro notifications t0
    have h := wf_acpRun notifications t0
    exact ⟨h.2.1, h.2.2.2⟩

/-- Witness: the two no-append components of `at_most_one_step_per_id` at a
concrete state holding one open call. -/
theorem at_most_one_step_per_id_witness :
    (Headless.step 0
      ⟨[.tool_call "t" "pending" none none 0 none], [("t", ⟨0, 0⟩)]⟩
      (⟨"tool_call", none, some "t", some "running"⟩, 5)).traj.length =
      ([.tool_call "t" "pending" none none 0 none] : List TrajectoryStep).length ∧
    (ACP.step 0
      ⟨[.tool_call "c" "pending" none none 0 none], [("c1", ⟨0, 0⟩)]⟩
      (.tool_call "c1" "c" (some "running") none none none, 5)).traj.length =
      ([.tool_call "c" "pending" none none 0 none] : List TrajectoryStep).length :=
  ⟨at_most_one_step_per_id.1 0
      ⟨[.tool_call "t" "pending" none none 0 none], [("t", ⟨0, 0⟩)]⟩
      ⟨"tool_call", none, some "t", some "running"⟩ 5 rfl (by decide),
    at_most_one_step_per_id.2.1 0
      ⟨[.tool_call "c" "pending" none none 0 none], [("c1", ⟨0, 0⟩)]⟩
      "c1" "c" (some "running") none none none 5 (by decide)⟩

/-- C10: a `tool_call` classification carrying status `"completed"` whose
derived identity has no open entry is not dropped: both extractors append
exactly one new `tool_call` step with status `"completed"` and no duration. -/
theorem completion_without_open_appends :
    (∀ (t0 : Int) (s : CorrState) (u : ParsedUpdate) (now : Int),
      u.type = "tool_call" → u.status = some "completed" →
      findCall s.calls (Headless.derivedId u now) = none →
      (Headless.step t0 s (u, now)).traj =
        s.traj ++ [.tool_call (u.title.getD "unknown") "completed" none none
          (now - t0) none]) ∧
    (∀ (t0 : Int) (s : CorrState) (id title : String)
        (rawInput content rawOutput : Option String) (now : Int),
      findCall s.calls id = none →
      (ACP.step t0 s
          (.tool_call id title (some "completed") rawInput content rawOutput, now)).traj =
        s.traj ++ [.tool_call title "completed" rawInput none (now - t0) none]) := by
  constructor
  · intro t0 s u now h3 hst hfc
    rw [headlessStep_tool_new h3 hfc t0]
    simp [hst]
  · intro t0 s id title rawInput content rawOutput now hfc
    rw [acpStep_tool_new title (some "completed") rawInput content rawOutput hfc t0]
    simp

/-- Witness: an orphan completion appended by both extractors from the empty
state. -/
theorem completion_without_open_appends_witness :
    (Headless.step 0 ⟨[], []⟩ (⟨"tool_call", none, some "t", some "completed"⟩, 7)).traj =
      [] ++ [.tool_call "t" "completed" none none (7 - 0) none] ∧
    (ACP.step 0 ⟨[], []⟩
        (.tool_call "c1" "c" (some "completed") none none none, 7)).traj =
      [] ++ [.tool_call "c" "completed" none none (7 - 0) none] :=
  ⟨completion_without_open_appends.1 0 ⟨[], []⟩
      ⟨"tool_call", none, some "t", some "completed"⟩ 7 rfl rfl rfl,
    completion_without_open_appends.2 0 ⟨[], []⟩ "c1" "c" none none none 7 rfl⟩

/-! ## The synthesized identity of untitled tool calls (headless extractor) -/

/-- C9 fails on the code: the synthesized identity is `"tool_"` followed by
the current time only — there is no disambiguator — so two distinct untitled
`tool_call` updates processed at the same millisecond collide: the run below
emits one step, not two. -/
theorem untitled_same_ms_collision :
    (Headless.extractTrajectory
      [(⟨"tool_call", none, none, none⟩, 5), (⟨"tool_call", none, none, none⟩, 5)]
      0).length = 1 := by
  decide

/-- C9 (amended): an untitled `tool_call` update receives the synthesized
identity `"tool_"` concatenated with the current clock reading, with no
disambiguator.  Two untitled updates processed at distinct milliseconds
receive distinct identities and yield two distinct steps; two processed at
the same millisecond share one identity, so the second appends no step. -/
theorem untitled_synthesized_id
    (u1 u2 : ParsedUpdate) (T1 T2 t0 : Int)
    (h1t : u1.type = "tool_call") (h1title : u1.title = none)
    (h2t : u2.type = "tool_call") (h2title : u2.title = none) :
    Headless.derivedId u1 T1 = "tool_" ++ toString T1 ∧
    (toString T1 ≠ toString T2 →
      (Headless.extractTrajectory [(u1, T1), (u2, T2)] t0).length = 2) ∧
    (T1 = T2 →
      (Headless.extractTrajectory [(u1, T1), (u2, T2)] t0).length = 1) := by
  have hid1 : Headless.derivedId u1 T1 = "tool_" ++ toString T1 := by
    simp [Headless.derivedId, h1title]
  have hid2 : Headless.derivedId u2 T2 = "tool_" ++ toString T2 := by
    simp [Headless.derivedId, h2title]
  have hrun : Headless.run [(u1, T1), (u2, T2)] t0 =
      Headless.step t0 (Headless.step t0 ⟨[], []⟩ (u1, T1)) (u2, T2) := rfl
  have hstep1 : Headless.step t0 ⟨[], []⟩ (u1, T1) =
      ⟨[] ++ [.tool_call (u1.title.getD "unknown") (u1.status.getD "pending") none none
          (T1 - t0) none],
        [(Headless.derivedId u1 T1, ⟨T1 - t0, 0⟩)]⟩ :=
    @headlessStep_tool_new u1 ⟨[], []⟩ T1 h1t rfl t0
  refine ⟨hid1, ?_, ?_⟩
  · intro hne
    have hne' : Headless.derivedId u1 T1 ≠ Headless.derivedId u2 T2 := by
      rw [hid1, hid2]
      intro hcontr
      apply hne
      have hdata := congrArg String.data hcontr
      simp [String.data_append] at hdata
      exact String.ext hdata
    have hfc2 : findCall [(Headless.derivedId u1 T1, (⟨T1 - t0, 0⟩ : CallEntry))]
        (Headless.derivedId u2 T2) = none := by
      simp [findCall, hne']
    show (Headless.run [(u1, T1), (u2, T2)] t0).traj.length = 2
    rw [hrun, hstep1, headlessStep_tool_new h2t hfc2 t0]
    simp
  · intro hT
    subst hT
    have hfc2 : findCall [(Headless.derivedId u1 T1, (⟨T1 - t0, 0⟩ : CallEntry))]
        (Headless.derivedId u2 T1) ≠ none := by
      rw [hid1, hid2]
      simp [findCall]
    show (Headless.run [(u1, T1), (u2, T1)] t0).traj.length = 1
    rw [hrun, hstep1]
    rw [(headlessStep_existing t0 _ u2 T1 h2t hfc2).1]
    simp

/-- Witness: the amended synthesized-identity law at two concrete untitled
updates, at distinct milliseconds and at the same millisecond. -/
theorem untitled_synthesized_id_witness :
    Headless.derivedId ⟨"tool_call", none, none, none⟩ 5 = "tool_" ++ toString (5 : Int) ∧
    (toString (5 : Int) ≠ toString (6 : Int) →
      (Headless.extractTrajectory
        [(⟨"tool_call", none, none, none⟩, 5), (⟨"tool_call", none, none, none⟩, 6)]
        0).length = 2) ∧
    ((5 : Int) = 6 →
      (Headless.extractTrajectory
        [(⟨"tool_call", none, none, none⟩, 5), (⟨"tool_call", none, none, none⟩, 6)]
        0).length = 1) :=
  untitled_synthesized_id ⟨"tool_call", none, none, none⟩ ⟨"tool_call", none, none, none⟩
    5 6 0 rfl rfl rfl rfl

/-! ## Richness classification -/

theorem detectLoop_eq (traj : List TrajectoryStep) (b : Bool) :
    detectLoop traj b =
      if traj.any TrajectoryStep.isFullKind then "full"
      else if b || traj.any TrajectoryStep.isMessage then "messages-only"
      else "minimal" := by
  induction traj generalizing b with
  | nil => simp [detectLoop]
  | cons st rest ih =>
    by_cases hf : st.isFullKind
    · simp [detectLoop, hf]
    · simp [detectLoop, hf, ih, Bool.or_assoc]

/-- C3: the richness classification is `"full"` exactly when some thought,
tool_call or plan step occurs anywhere; otherwise `"messages-only"` exactly
when some message step occurs; otherwise `"minimal"`; the empty trajectory
is `"minimal"`, and a plan step anywhere forces `"full"` regardless of
order. -/
theorem richness_classification (traj : List TrajectoryStep) :
    (detectTrajectoryRichness traj = "full" ↔
      traj.any TrajectoryStep.isFullKind = true) ∧
    (detectTrajectoryRichness traj = "messages-only" ↔
      (traj.any TrajectoryStep.isFullKind = false ∧
        traj.any TrajectoryStep.isMessage = true)) ∧
    (detectTrajectoryRichness traj = "minimal" ↔
      (traj.any TrajectoryStep.isFullKind = false ∧
        traj.any TrajectoryStep.isMessage = false)) ∧
    detectTrajectoryRichness ([] : List TrajectoryStep) = "minimal" ∧
    (∀ st ∈ traj, st.isPlan = true → detectTrajectoryRichness traj = "full") := by
  have hplan : ∀ st ∈ traj, st.isPlan = true →
      traj.any TrajectoryStep.isFullKind = true := by
    intro st hst hp
    refine List.any_eq_true.mpr ⟨st, hst, ?_⟩
    cases st <;> simp_all [TrajectoryStep.isPlan, TrajectoryStep.isFullKind]
  refine ⟨?_, ?_, ?_, rfl, fun st hst hp => ?_⟩
  · simp only [detectTrajectoryRichness, detectLoop_eq]
    cases hfull : traj.any TrajectoryStep.isFullKind <;>
      cases hmsg : traj.any TrajectoryStep.isMessage <;> simp
  · simp only [detectTrajectoryRichness, detectLoop_eq]
    cases hfull : traj.any TrajectoryStep.isFullKind <;>
      cases hmsg : traj.any TrajectoryStep.isMessage <;> simp
  · simp only [detectTrajectoryRichness, detectLoop_eq]
    cases hfull : traj.any TrajectoryStep.isFullKind <;>
      cases hmsg : traj.any TrajectoryStep.isMessage <;> simp
  · simp only [detectTrajectoryRichness, detectLoop_eq, hplan st hst hp]
    simp

/-- Witness: the plan-forces-full component of the richness classification
at a concrete trajectory whose plan step comes last. -/
theorem richness_classification_witness :
    detectTrajectoryRichness [.message "m" 0, .plan [] 1] = "full" :=
  (richness_classification [.message "m" 0, .plan [] 1]).2.2.2.2
    (.plan [] 1) (by decide) rfl

/-! ## Tool-error and output derivation -/

/-- C4: the derived per-turn `toolErrors` flag is true exactly when some
`tool_call` step has final status `"failed"`, or the exit metadata of the
turn reports a timeout. -/
theorem toolErrors_iff (traj : List TrajectoryStep) (info : Option ProcessExitInfo) :
    turnToolErrors traj info = true ↔
      ((∃ st ∈ traj, st.isFailedToolCall = true) ∨
        ∃ ei, info = some ei ∧ ei.timedOut = true) := by
  unfold turnToolErrors hasToolErrors
  cases info with
  | none => simp [List.any_eq_true]
  | some ei => simp [List.any_eq_true]

theorem joinLines_cons (s : String) (l : List String) :
    joinLines (s :: l) = if l.isEmpty then s else s ++ "\n" ++ joinLines l := by
  cases l <;> rfl

theorem extractOutput_filter_empty {traj : List TrajectoryStep}
    (h : ∀ st ∈ traj, st.isMessage = false) : extractOutput traj = "" := by
  unfold extractOutput
  rw [List.filter_eq_nil_iff.mpr (by simpa using h)]
  rfl

/-- C5: the derived output is the newline-joined concatenation of all
message-step contents in trajectory order — characterized by its value on
the empty-message case and the two cons cases — and it is used as the output
of the turn exactly when the directly exposed terminal output is empty. -/
theorem output_derivation (traj rest : List TrajectoryStep) (st : TrajectoryStep)
    (c lastOutput : String) (ts : Int) :
    ((∀ s ∈ traj, s.isMessage = false) → extractOutput traj = "") ∧
    (st.isMessage = false → extractOutput (st :: rest) = extractOutput rest) ∧
    (extractOutput (.message c ts :: rest) =
      if rest.any TrajectoryStep.isMessage then c ++ "\n" ++ extractOutput rest else c) ∧
    (lastOutput ≠ "" → turnOutput lastOutput traj = lastOutput) ∧
    turnOutput "" traj = extractOutput traj := by
  refine ⟨extractOutput_filter_empty, ?_, ?_, ?_, ?_⟩
  · intro h
    simp [extractOutput, List.filter_cons, h]
  · have hmem : ((rest.filter TrajectoryStep.isMessage).map
        TrajectoryStep.messageContent).isEmpty = !(rest.any TrajectoryStep.isMessage) := by
      cases hany : rest.any TrajectoryStep.isMessage
      · rw [List.filter_eq_nil_iff.mpr]
        · rfl
        · intro a ha hmsg
          have hcontr := List.any_eq_true.mpr ⟨a, ha, hmsg⟩
          rw [hany] at hcontr
          exact Bool.noConfusion hcontr
      · rw [List.any_eq_true] at hany
        obtain ⟨a, ha, hamsg⟩ := hany
        have : a ∈ rest.filter TrajectoryStep.isMessage := List.mem_filter.mpr ⟨ha, hamsg⟩
        cases hfil : rest.filter TrajectoryStep.isMessage with
        | nil => rw [hfil] at this; exact absurd this (List.not_mem_nil a)
        | cons y ys => simp
    show joinLines ((((TrajectoryStep.message c ts) :: rest).filter
        TrajectoryStep.isMessage).map TrajectoryStep.messageContent) = _
    rw [List.filter_cons]
    simp only [TrajectoryStep.isMessage, if_pos]
    rw [List.map_cons, joinLines_cons, hmem]
    cases hany : rest.any TrajectoryStep.isMessage <;> simp [extractOutput,
      TrajectoryStep.messageContent]
  · intro h
    simp [turnOutput, h]
  · simp [turnOutput]

/-- Witness: the output derivation at a concrete trajectory and a concrete
directly-exposed output. -/
theorem output_derivation_witness :
    extractOutput [.thought "x" 0] = "" ∧
    turnOutput "direct" [.message "m" 0] = "direct" :=
  ⟨(output_derivation [.thought "x" 0] [] (.thought "x" 0) "c" "l" 0).1 (by decide),
    (output_derivation [.message "m" 0] [] (.thought "x" 0) "c" "direct" 0).2.2.2.1
      (by decide)⟩

/-! ## Error isolation of the capture loop -/

/-- C6: the capture loop writes one result record per prompt case; a case
whose execution raises an error still yields a record — with empty
trajectory, empty output, `toolErrors = true` and the error message in its
error list — and the loop proceeds (every later case keeps its own record at
its own position). -/
theorem capture_loop_error_isolation (caseList : List (String × Int × CaseOutcome)) :
    (runCaptureLoop caseList).length = caseList.length ∧
    (∀ (i : Nat) (pid : String) (t : Int) (msg : String),
      caseList[i]? = some (pid, t, .err msg) →
      (runCaptureLoop caseList)[i]? = some
        { id := pid, output := "", trajectory := [], richness := "minimal",
          toolErrors := true, errors := some [msg] }) := by
  constructor
  · simp [runCaptureLoop]
  · intro i pid t msg h
    simp [runCaptureLoop, List.getElem?_map, h, caseResult]

/-- Witness: a crashed first case still yields its error record while the
second case yields its success record. -/
theorem capture_loop_error_isolation_witness :
    (runCaptureLoop [("a", 0, .err "boom"), ("b", 0, .ok [] none "out")]).length = 2 ∧
    (runCaptureLoop [("a", 0, .err "boom"), ("b", 0, .ok [] none "out")])[0]? = some
      { id := "a", output := "", trajectory := [], richness := "minimal",
        toolErrors := true, errors := some ["boom"] } :=
  ⟨(capture_loop_error_isolation
      [("a", 0, .err "boom"), ("b", 0, .ok [] none "out")]).1,
    (capture_loop_error_isolation
      [("a", 0, .err "boom"), ("b", 0, .ok [] none "out")]).2 0 "a" 0 "boom" rfl⟩

/-! ## Configuration validation -/

theorem parsePromptConfig_flag_stdin_none {p : Json} {s : String}
    (hflag : p.lookup "flag" = some (.str s)) (hs : s ≠ "")
    (hstdin : p.lookup "stdin" = some (.bool true)) :
    parsePromptConfig p = none := by
  obtain ⟨pf, rfl⟩ : ∃ pf, p = .obj pf := by
    cases p with
    | obj pf => exact ⟨pf, rfl⟩
    | _ => simp [Json.lookup] at hflag
  have hflag' : lookupField pf "flag" = some (.str s) := hflag
  have hstdin' : lookupField pf "stdin" = some (.bool true) := hstdin
  have h1 : optField pf "flag" asStr = some (some s) := by
    simp [optField, hflag', asStr]
  have h2 : optField pf "stdin" asBool = some (some true) := by
    simp [optField, hstdin', asBool]
  rcases h3 : optField pf "stdinFormat" (asEnum ["text", "json"]) with _ | fmt
  · simp [parsePromptConfig, h1, h2, h3]
  · simp [parsePromptConfig, h1, h2, h3, promptFlagTruthy, hs]

theorem parseV1Fields_prompt_none {jf : List (String × Json)} {p : Json}
    (hp : lookupField jf "prompt" = some p) (hpp : parsePromptConfig p = none) :
    parseV1Fields jf = none := by
  unfold parseV1Fields
  simp only [Option.bind_eq_bind]
  rcases h1 : reqField jf "version" (litNum 1) with _ | v1
  · rw [Option.none_bind]
  rw [Option.some_bind]
  rcases h2 : reqField jf "name" asStr with _ | nm
  · rw [Option.none_bind]
  rw [Option.some_bind]
  rcases h3 : reqField jf "command" (asList asStr) with _ | cmd
  · rw [Option.none_bind]
  rw [Option.some_bind]
  rcases h4 : reqField jf "sessionMode" (asEnum ["stream", "iterative"]) with _ | sm
  · rw [Option.none_bind]
  rw [Option.some_bind]
  have h5 : reqField jf "prompt" parsePromptConfig = none := by
    unfold reqField
    rw [hp, Option.some_bind]
    exact hpp
  rw [h5, Option.none_bind]

theorem parseV2Fields_prompt_none {jf : List (String × Json)} {p : Json}
    (hp : lookupField jf "prompt" = some p) (hpp : parsePromptConfig p = none) :
    parseV2Fields jf = none := by
  unfold parseV2Fields
  simp only [Option.bind_eq_bind]
  rcases h1 : reqField jf "version" (litNum 2) with _ | v1
  · rw [Option.none_bind]
  rw [Option.some_bind]
  rcases h2 : reqField jf "name" asStr with _ | nm
  · rw [Option.none_bind]
  rw [Option.some_bind]
  rcases h3 : reqField jf "command" (asList asStr) with _ | cmd
  · rw [Option.none_bind]
  rw [Option.some_bind]
  rcases h4 : reqField jf "sessionMode" (asEnum ["stream", "iterative"]) with _ | sm
  · rw [Option.none_bind]
  rw [Option.some_bind]
  rcases h5 : optField jf "timeout" asNum with _ | tout
  · rw [Option.none_bind]
  rw [Option.some_bind]
  have h6 : reqField jf "prompt" parsePromptConfig = none := by
    unfold reqField
    rw [hp, Option.some_bind]
    exact hpp
  rw [h6, Option.none_bind]

/-- C7: a configuration document whose prompt section specifies both a
non-empty `flag` and `stdin: true` is rejected by `parseHeadlessConfig`
(the refine clause of `PromptConfigSchema` fails in both schema versions). -/
theorem flag_stdin_conflict_rejected (j p : Json) (s : String)
    (hp : j.lookup "prompt" = some p)
    (hflag : p.lookup "flag" = some (.str s)) (hs : s ≠ "")
    (hstdin : p.lookup "stdin" = some (.bool true)) :
    parseHeadlessConfig j = none := by
  obtain ⟨jf, rfl⟩ : ∃ jf, j = .obj jf := by
    cases j with
    | obj jf => exact ⟨jf, rfl⟩
    | _ => simp [Json.lookup] at hp
  have hp' : lookupField jf "prompt" = some p := hp
  have hpp : parsePromptConfig p = none :=
    parsePromptConfig_flag_stdin_none hflag hs hstdin
  have hv1 : parseV1 (.obj jf) = none := parseV1Fields_prompt_none hp' hpp
  have hv2 : parseV2 (.obj jf) = none := parseV2Fields_prompt_none hp' hpp
  simp [parseHeadlessConfig, hv1, hv2]

/-- Witness: the illegal flag-plus-stdin prompt section at a concrete
document. -/
theorem flag_stdin_conflict_rejected_witness :
    parseHeadlessConfig (.obj [("prompt",
      .obj [("flag", .str "-p"), ("stdin", .bool true)])]) = none :=
  flag_stdin_conflict_rejected
    (.obj [("prompt", .obj [("flag", .str "-p"), ("stdin", .bool true)])])
    (.obj [("flag", .str "-p"), ("stdin", .bool true)]) "-p"
    rfl rfl (by decide) rfl

theorem lookupField_append_ne {fields : List (String × Json)} {k key : String}
    (v : Json) (h : key ≠ k) :
    lookupField (fields ++ [(k, v)]) key = lookupField fields key := by
  induction fields with
  | nil =>
    simp only [List.nil_append, lookupField]
    rw [if_neg (fun hh => h hh.symm)]
  | cons kv rest ih =>
    obtain ⟨k', v'⟩ := kv
    by_cases hk : k' = key <;> simp [lookupField, hk, ih]

set_option maxHeartbeats 2000000 in
theorem parseV1Fields_congr {A B : List (String × Json)}
    (h : ∀ key ∈ schemaKeys, lookupField A key = lookupField B key) :
    parseV1Fields A = parseV1Fields B := by
  have hversion := h "version" (by simp [schemaKeys])
  have hname := h "name" (by simp [schemaKeys])
  have hcommand := h "command" (by simp [schemaKeys])
  have hsession := h "sessionMode" (by simp [schemaKeys])
  have hprompt := h "prompt" (by simp [schemaKeys])
  have houtput := h "output" (by simp [schemaKeys])
  have hauto := h "autoApprove" (by simp [schemaKeys])
  have hresume := h "resume" (by simp [schemaKeys])
  have hcwd := h "cwdFlag" (by simp [schemaKeys])
  have hevents := h "outputEvents" (by simp [schemaKeys])
  have hresult := h "result" (by simp [schemaKeys])
  have hhistory := h "historyTemplate" (by simp [schemaKeys])
  simp only [parseV1Fields, reqField, optField, hversion, hname, hcommand, hsession,
    hprompt, houtput, hauto, hresume, hcwd, hevents, hresult, hhistory]

set_option maxHeartbeats 2000000 in
theorem parseV2Fields_congr {A B : List (String × Json)}
    (h : ∀ key ∈ schemaKeys, lookupField A key = lookupField B key) :
    parseV2Fields A = parseV2Fields B := by
  have hversion := h "version" (by simp [schemaKeys])
  have hname := h "name" (by simp [schemaKeys])
  have hcommand := h "command" (by simp [schemaKeys])
  have hsession := h "sessionMode" (by simp [schemaKeys])
  have htimeout := h "timeout" (by simp [schemaKeys])
  have hprompt := h "prompt" (by simp [schemaKeys])
  have houtput := h "output" (by simp [schemaKeys])
  have hauto := h "autoApprove" (by simp [schemaKeys])
  have hresume := h "resume" (by simp [schemaKeys])
  have hcwd := h "cwdFlag" (by simp [schemaKeys])
  have hevents := h "outputEvents" (by simp [schemaKeys])
  have hresult := h "result" (by simp [schemaKeys])
  have hhistory := h "historyTemplate" (by simp [schemaKeys])
  simp only [parseV2Fields, reqField, optField, hversion, hname, hcommand, hsession,
    htimeout, hprompt, houtput, hauto, hresume, hcwd, hevents, hresult, hhistory]

theorem parseV1Fields_name_none {jf : List (String × Json)}
    (h : lookupField jf "name" = none) : parseV1Fields jf = none := by
  unfold parseV1Fields
  simp only [Option.bind_eq_bind]
  rcases h1 : reqField jf "version" (litNum 1) with _ | v1
  · rw [Option.none_bind]
  · have h2 : reqField jf "name" asStr = none := by
      unfold reqField
      rw [h, Option.none_bind]
    rw [Option.some_bind, h2, Option.none_bind]

theorem parseV2Fields_name_none {jf : List (String × Json)}
    (h : lookupField jf "name" = none) : parseV2Fields jf = none := by
  unfold parseV2Fields
  simp only [Option.bind_eq_bind]
  rcases h1 : reqField jf "version" (litNum 2) with _ | v1
  · rw [Option.none_bind]
  · have h2 : reqField jf "name" asStr = none := by
      unfold reqField
      rw [h, Option.none_bind]
    rw [Option.some_bind, h2, Option.none_bind]

/-- C8 fails on the code: the schemas use the default (strip) object mode,
so a document carrying a field outside the declared field set is accepted,
not rejected — this concrete valid version-1 document with the extra field
`unexpectedField` parses successfully. -/
theorem unknown_field_accepted :
    (parseHeadlessConfig (.obj [("version", .num 1), ("name", .str "agent"),
      ("command", .arr []), ("sessionMode", .str "stream"), ("prompt", .obj []),
      ("output", .obj [("flag", .str "-f"), ("value", .str "json")]),
      ("outputEvents", .arr []),
      ("result", .obj [("matchPath", .str "t"), ("matchValue", .str "r"),
        ("contentPath", .str "c")]),
      ("unexpectedField", .bool true)])).isSome = true := by
  decide

/-- C8 (amended): unknown fields are ignored, not rejected — appending a
field whose key is outside the declared field set never changes the result
of validation — while a document missing the required `name` field is
rejected. -/
theorem unknown_fields_ignored (fields : List (String × Json)) (k : String) (v : Json)
    (hk : k ∉ schemaKeys) :
    parseHeadlessConfig (.obj (fields ++ [(k, v)])) = parseHeadlessConfig (.obj fields) ∧
    (lookupField fields "name" = none → parseHeadlessConfig (.obj fields) = none) := by
  constructor
  · have hlook : ∀ key ∈ schemaKeys, lookupField (fields ++ [(k, v)]) key =
        lookupField fields key := by
      intro key hkey
      refine lookupField_append_ne v ?_
      intro hcontr
      exact hk (hcontr ▸ hkey)
    have hv1 : parseV1 (.obj (fields ++ [(k, v)])) = parseV1 (.obj fields) :=
      parseV1Fields_congr hlook
    have hv2 : parseV2 (.obj (fields ++ [(k, v)])) = parseV2 (.obj fields) :=
      parseV2Fields_congr hlook
    simp [parseHeadlessConfig, hv1, hv2]
  · intro hname
    have hv1 : parseV1 (.obj fields) = none := parseV1Fields_name_none hname
    have hv2 : parseV2 (.obj fields) = none := parseV2Fields_name_none hname
    simp [parseHeadlessConfig, hv1, hv2]

/-- Witness: appending the unknown field `unexpectedField` to a valid
document leaves validation unchanged, and dropping `name` is rejected. -/
theorem unknown_fields_ignored_witness :
    parseHeadlessConfig (.obj ([("version", .num 1), ("name", .str "agent"),
        ("command", .arr []), ("sessionMode", .str "stream"), ("prompt", .obj []),
        ("output", .obj [("flag", .str "-f"), ("value", .str "json")]),
        ("outputEvents", .arr []),
        ("result", .obj [("matchPath", .str "t"), ("matchValue", .str "r"),
          ("contentPath", .str "c")])] ++ [("unexpectedField", .bool true)])) =
      parseHeadlessConfig (.obj [("version", .num 1), ("name", .str "agent"),
        ("command", .arr []), ("sessionMode", .str "stream"), ("prompt", .obj []),
        ("output", .obj [("flag", .str "-f"), ("value", .str "json")]),
        ("outputEvents", .arr []),
        ("result", .obj [("matchPath", .str "t"), ("matchValue", .str "r"),
          ("contentPath", .str "c")])]) ∧
    parseHeadlessConfig (.obj [("version", .num 1)]) = none := by
  have h := unknown_fields_ignored [("version", .num 1), ("name", .str "agent"),
    ("command", .arr []), ("sessionMode", .str "stream"), ("prompt", .obj []),
    ("output", .obj [("flag", .str "-f"), ("value", .str "json")]),
    ("outputEvents", .arr []),
    ("result", .obj [("matchPath", .str "t"), ("matchValue", .str "r"),
      ("contentPath", .str "c")])] "unexpectedField" (.bool true) (by decide)
  have h2 := unknown_fields_ignored [("version", .num 1)] "unexpectedField"
    (.bool true) (by decide)
  exact ⟨h.1, h2.2 rfl⟩

end AcpHarness
